import Mathlib

/-!
Verification of the dienstplan shift-scheduling core.

This file is a shallow embedding of the parts of the repository that the
verified claims are about:

* scheduler.py : the MIP model built by generate_schedule_highs
  (decision variables, hard constraints, slacked soft constraints, the
  objective, and the recorded variable order), together with the two
  absence helpers employee_is_absent and has_absence_type;
* database.py : process_date_entries, the absence-string expander;
* app.py      : the solution extraction loop that turns solver values into
  the (employee, day) to shift-code map.

Machine conventions: solver Boolean variables are modelled as Int-valued
functions constrained to 0 or 1. The continuous NumVar(0, infinity) slack
variables are modelled as Int-valued functions constrained nonnegative:
every slacked constraint of this model has integer coefficients and
bounds and bounds its slack only from below, so the constraint system is
satisfiable over the reals exactly when it is satisfiable with integer
slacks, and the integer model keeps every statement kernel-computable.
Solver output values (floats compared against the 0.9 threshold) and the
specification's ten-to-the-minus-six tie-break coefficient are modelled
as rationals.
Shift-code strings are modelled by the closed enumeration SC below; the
mapping to the source strings is noted on each constructor.
-/

namespace Dienstplan

/-- ASCII whitespace stripped by Python str.strip(). -/
def isPySpace (c : Char) : Bool :=
  c == ' ' || c == '\t' || c == '\n' || c == '\r' || c == '\x0b' || c == '\x0c'

/-- Python str.strip() on the character list. -/
def pyStripList (cs : List Char) : List Char :=
  ((cs.dropWhile isPySpace).reverse.dropWhile isPySpace).reverse

/-- Python str.strip(). -/
def pyStrip (s : String) : String := String.mk (pyStripList s.toList)

/-- Splitting a character list at every occurrence of a separator, Python
str.split(c) semantics (empty pieces preserved). -/
def pySplitAux (c : Char) : List Char → List Char → List String
  | [], acc => [String.mk acc.reverse]
  | ch :: rest, acc =>
    if ch == c then String.mk acc.reverse :: pySplitAux c rest []
    else pySplitAux c rest (ch :: acc)

/-- Python s.split(c) for a single-character separator. -/
def pySplit (c : Char) (s : String) : List String := pySplitAux c s.toList []

/-- Python (c in s) membership of a character. -/
def pyContains (s : String) (c : Char) : Bool := s.toList.contains c

/-- Decimal value of a digit list. -/
def digitsToNat (cs : List Char) : Nat :=
  cs.foldl (fun acc c => acc * 10 + (c.toNat - 48)) 0

/-- Python int(s): strip whitespace, optional sign, nonempty digit string.
Returns none where Python raises ValueError. -/
def pyInt (s : String) : Option Int :=
  match pyStripList s.toList with
  | [] => none
  | c :: rest =>
    let (sign, ds) :=
      if c == '-' then ((-1 : Int), rest)
      else if c == '+' then ((1 : Int), rest)
      else ((1 : Int), c :: rest)
    if ds.isEmpty then none
    else if ds.all Char.isDigit then some (sign * (digitsToNat ds : Nat))
    else none

/-- Python dict lookup d.get(k): first matching key, none when absent. -/
def pyGet {α β : Type} [DecidableEq α] : List (α × β) → α → Option β
  | [], _ => none
  | p :: t, k => if k = p.1 then some p.2 else pyGet t k

/-- Gregorian leap year, as used by Python calendar/datetime. -/
def isLeapYear (y : Nat) : Bool :=
  (y % 4 == 0 && y % 100 != 0) || (y % 400 == 0)

/-- calendar.monthrange(year, month)[1]: number of days of the month. -/
def daysInMonth (y m : Nat) : Nat :=
  if m = 2 then (if isLeapYear y then 29 else 28)
  else if m = 4 ∨ m = 6 ∨ m = 9 ∨ m = 11 then 30 else 31

/-- Month-offset table of the Sakamoto day-of-week algorithm. -/
def sakamotoT : List Nat := [0, 3, 2, 5, 0, 3, 5, 1, 4, 6, 2, 4]

/-- datetime.date(y, m, d).weekday(): Monday = 0 .. Sunday = 6. -/
def pyWeekday (y m d : Nat) : Nat :=
  let yy := if m < 3 then y - 1 else y
  ((yy + yy / 4 - yy / 100 + yy / 400 + sakamotoT.getD (m - 1) 0 + d) + 6) % 7

/-- The closed set of solver shift codes. `B` is the string code
"B Dienst", `C` is "C Dienst", `S` is "S Dienst", `VS` is "VS Dienst",
`BS` is "BS Dienst", `C4` is "C4 Dienst", and `Bue` is the office pseudo
code "Bü Dienst" carried by the y variables. -/
inductive SC where
  | B | C | S | VS | BS | C4 | Bue
deriving DecidableEq, Repr

/-- Per-shift requirement record of the required_shifts dictionary:
"total" assignments per day, the "fach" and "nonfach" keys when present,
and the "optional" flag of the split shifts. -/
structure ShiftReq where
  total : Int
  fach : Option Nat
  nonfach : Option Nat
  isOptional : Bool
deriving DecidableEq, Repr

/-- The required_shifts dictionary of generate_schedule_highs, in its
insertion order. -/
def requiredShifts : List (SC × ShiftReq) :=
  [ (SC.B,  ⟨3, some 1, some 2, false⟩)
  , (SC.C,  ⟨1, some 0, some 1, false⟩)
  , (SC.S,  ⟨2, some 1, some 1, false⟩)
  , (SC.VS, ⟨1, none, none, false⟩)
  , (SC.BS, ⟨0, none, none, true⟩)
  , (SC.C4, ⟨0, none, none, true⟩) ]

/-- required_shifts.keys() in iteration order. -/
def requiredShiftCodes : List SC := requiredShifts.map Prod.fst

/-- early_shifts = set of B Dienst, C Dienst, BS Dienst, C4 Dienst. -/
def earlyShifts : List SC := [SC.B, SC.C, SC.BS, SC.C4]

/-- late_shifts = set of S Dienst, VS Dienst, BS Dienst, C4 Dienst. -/
def lateShifts : List SC := [SC.S, SC.VS, SC.BS, SC.C4]

/-- pure_late_shifts = set of S Dienst, VS Dienst. -/
def pureLateShifts : List SC := [SC.S, SC.VS]

/-- Input snapshot of one generate_schedule_highs invocation: the employee
id list, the employee_qualifications dictionary, the absences dictionary
(employee id to list of (date string, absence type) records), the
employee_workload dictionary, year, month, and the holiday date list. -/
structure SchedInput where
  employees : List Nat
  quals : List (Nat × String)
  absences : List (Nat × List (String × String))
  workload : List (Nat × Int)
  year : Nat
  month : Nat
  holidays : List (Nat × Nat × Nat)
deriving Repr

/-- num_days = calendar.monthrange(year, month)[1]. -/
def numDays (I : SchedInput) : Nat := daysInMonth I.year I.month

/-- The day range 1 .. num_days. -/
def monthDays (I : SchedInput) : List Nat := List.range' 1 (numDays I)

/-- employee_qualifications.get(e_id). -/
def qualOf (I : SchedInput) (e : Nat) : Option String := pyGet I.quals e

/-- Loop body of employee_is_absent: one absence record hits (day, month)
iff its date string has at least two dot-separated parts whose first two
parse as exactly that day and month. -/
def recordHit (record : String × String) (d month : Nat) : Bool :=
  let parts := pySplit '.' record.1
  if parts.length ≥ 2 then
    match pyInt (parts.getD 0 ""), pyInt (parts.getD 1 "") with
    | some ad, some am => ad == (d : Int) && am == (month : Int)
    | _, _ => false
  else false

/-- employee_is_absent(e_id, d, month, absences) of scheduler.py. -/
def employee_is_absent (e_id d month : Nat)
    (absences : List (Nat × List (String × String))) : Bool :=
  match pyGet absences e_id with
  | none => false
  | some records => records.any (fun r => recordHit r d month)

/-- Loop body of has_absence_type: additionally the record type must equal
the requested absence type. -/
def recordHitType (record : String × String) (d month : Nat)
    (absence_type : String) : Bool :=
  recordHit record d month && record.2 == absence_type

/-- has_absence_type(e_id, day, month, absences, absence_type) of
scheduler.py. -/
def has_absence_type (e_id d month : Nat)
    (absences : List (Nat × List (String × String)))
    (absence_type : String) : Bool :=
  match pyGet absences e_id with
  | none => false
  | some records => records.any (fun r => recordHitType r d month absence_type)

/-- Sum of x over all employees for a fixed day and shift. -/
def sumX (I : SchedInput) (x : Nat → Nat → SC → Int) (d : Nat) (s : SC) : Int :=
  (I.employees.map (fun e => x e d s)).sum

/-- Sum of x over all required shift codes for a fixed employee and day. -/
def sumShifts (x : Nat → Nat → SC → Int) (e d : Nat) : Int :=
  (requiredShiftCodes.map (fun s => x e d s)).sum

/-- Whether a qualification lookup result lies in fach_qual =
set of HF, Leitung. -/
def isFach (q : Option String) : Bool :=
  q == some "HF" || q == some "Leitung"

/-- Sum of x over employees filtered by a qualification predicate. -/
def sumXBy (I : SchedInput) (x : Nat → Nat → SC → Int) (d : Nat) (s : SC)
    (p : Option String → Bool) : Int :=
  ((I.employees.filter (fun e => p (qualOf I e))).map (fun e => x e d s)).sum

/-- Sum of x over a set of shifts for all employees on a day. -/
def groupSum (I : SchedInput) (x : Nat → Nat → SC → Int) (d : Nat)
    (shifts : List SC) : Int :=
  (shifts.map (fun s => sumX I x d s)).sum

/-- Sum of x over a set of shifts for qualification-filtered employees. -/
def groupSumBy (I : SchedInput) (x : Nat → Nat → SC → Int) (d : Nat)
    (shifts : List SC) (p : Option String → Bool) : Int :=
  (shifts.map (fun s => sumXBy I x d s p)).sum

/-- All x variables are solver Booleans (BoolVar): value 0 or 1. -/
def BinaryX (I : SchedInput) (x : Nat → Nat → SC → Int) : Prop :=
  ∀ e ∈ I.employees, ∀ d ∈ monthDays I, ∀ s ∈ requiredShiftCodes,
    x e d s = 0 ∨ x e d s = 1

/-- All y variables are solver Booleans (BoolVar): value 0 or 1. -/
def BinaryY (I : SchedInput) (y : Nat → Nat → Int) : Prop :=
  ∀ e ∈ I.employees, ∀ d ∈ monthDays I, y e d = 0 ∨ y e d = 1

/-- Builder constraint on y: on weekends, for non-Leitung employees, or on
absent days, Bü Dienst is forced to 0 (scheduler.py lines 171-175). -/
def YForced (I : SchedInput) (y : Nat → Nat → Int) : Prop :=
  ∀ d ∈ monthDays I, ∀ e ∈ I.employees,
    (5 ≤ pyWeekday I.year I.month d ∨ qualOf I e ≠ some "Leitung" ∨
      employee_is_absent e d I.month I.absences = true) → y e d = 0

/-- Each employee works at most one shift per day; for Leitung the Bü
Dienst variable is included in the count (scheduler.py lines 177-185). -/
def OneShift (I : SchedInput) (x : Nat → Nat → SC → Int)
    (y : Nat → Nat → Int) : Prop :=
  ∀ d ∈ monthDays I, ∀ e ∈ I.employees,
    if qualOf I e = some "Leitung" then sumShifts x e d + y e d ≤ 1
    else sumShifts x e d ≤ 1

/-- Availability: an absent employee is assigned no regular shift
(scheduler.py lines 190-194). -/
def AbsenceZero (I : SchedInput) (x : Nat → Nat → SC → Int) : Prop :=
  ∀ d ∈ monthDays I, ∀ e ∈ I.employees,
    employee_is_absent e d I.month I.absences = true → sumShifts x e d = 0

/-- Leitung rules: weekdays only, only B Dienst among regular shifts, not
both B Dienst and Bü Dienst on a day, and exactly BURO_DAYS_PER_MONTH = 4
Bü Dienst days on weekdays (scheduler.py lines 200-217). -/
def LeitungRules (I : SchedInput) (x : Nat → Nat → SC → Int)
    (y : Nat → Nat → Int) : Prop :=
  ∀ e ∈ I.employees, qualOf I e = some "Leitung" →
    (∀ d ∈ monthDays I,
      if 5 ≤ pyWeekday I.year I.month d then sumShifts x e d = 0
      else (∀ s ∈ requiredShiftCodes, s ≠ SC.B → x e d s = 0) ∧
        x e d SC.B + y e d ≤ 1) ∧
    (((monthDays I).filter
        (fun d => pyWeekday I.year I.month d < 5)).map (fun d => y e d)).sum = 4

/-- Hard per-shift daily coverage: for every non-optional shift the total
number of assignments reaches req["total"], with no slack variable
(scheduler.py line 229). -/
def CoverageHard (I : SchedInput) (x : Nat → Nat → SC → Int) : Prop :=
  ∀ d ∈ monthDays I, ∀ sr ∈ requiredShifts,
    sr.2.isOptional = false → sr.2.total ≤ sumX I x d sr.1

/-- Slacked fach / nonfach composition floors per non-optional shift
(scheduler.py lines 232-249). The slack variables are NumVar(0, inf). -/
def QualSlack (I : SchedInput) (x : Nat → Nat → SC → Int)
    (fachS nonfachS : Nat → SC → Int) : Prop :=
  ∀ d ∈ monthDays I, ∀ sr ∈ requiredShifts, sr.2.isOptional = false →
    (sr.2.fach.isSome = true → 0 ≤ fachS d sr.1 ∧
      ((sr.2.fach.getD 0 : Nat) : Int) ≤ sumXBy I x d sr.1 isFach + fachS d sr.1) ∧
    (sr.2.nonfach.isSome = true → 0 ≤ nonfachS d sr.1 ∧
      ((sr.2.nonfach.getD 0 : Nat) : Int) ≤
        sumXBy I x d sr.1 (fun q => ¬ isFach q) + nonfachS d sr.1)

/-- Slacked group coverage per day: early total (threshold 5 on weekdays
and weekends alike), early fach floor 1, late total 3, late HF floor 1,
the soft cap of one fach in pure late shifts, and the soft B Dienst floor
of 2 (scheduler.py lines 256-302). -/
def GroupSlack (I : SchedInput) (x : Nat → Nat → SC → Int)
    (earlyS earlyFachS lateS lateHfS lateExtraS bS : Nat → Int) : Prop :=
  ∀ d ∈ monthDays I,
    (0 ≤ earlyS d ∧
      ((if 5 ≤ pyWeekday I.year I.month d then (5 : Int) else 5) ≤
        groupSum I x d earlyShifts + earlyS d)) ∧
    (0 ≤ earlyFachS d ∧
      (1 : Int) ≤ groupSumBy I x d earlyShifts isFach + earlyFachS d) ∧
    (0 ≤ lateS d ∧ (3 : Int) ≤ groupSum I x d lateShifts + lateS d) ∧
    (0 ≤ lateHfS d ∧
      (1 : Int) ≤ groupSumBy I x d lateShifts (fun q => q == some "HF") + lateHfS d) ∧
    (0 ≤ lateExtraS d ∧
      groupSumBy I x d pureLateShifts isFach - 1 ≤ lateExtraS d) ∧
    (0 ≤ bS d ∧ (2 : Int) ≤ sumX I x d SC.B + bS d)

/-- Late-to-early transition constraints (scheduler.py lines 307-321):
after S Dienst or BS Dienst no early shift follows; after VS Dienst or C4
Dienst only C Dienst is allowed among the early shifts. -/
def Transitions (I : SchedInput) (x : Nat → Nat → SC → Int) : Prop :=
  ∀ d ∈ List.range' 1 (numDays I - 1), ∀ e ∈ I.employees,
    (∀ ls ∈ [SC.S, SC.BS], ∀ es ∈ earlyShifts,
      x e d ls + x e (d + 1) es ≤ 1) ∧
    (x e d SC.VS +
      ((earlyShifts.filter (fun s => s ≠ SC.C)).map (fun s => x e (d + 1) s)).sum ≤ 1) ∧
    (x e d SC.C4 +
      ((earlyShifts.filter (fun s => s ≠ SC.C)).map (fun s => x e (d + 1) s)).sum ≤ 1)

/-- weekend_groups of scheduler.py lines 326-337: left-to-right scan
pairing each Saturday with an in-month following Sunday. -/
def weekendGroupsFrom (y m nd : Nat) : Nat → Nat → List (List Nat)
  | 0, _ => []
  | fuel + 1, d =>
    if d > nd then []
    else if 5 ≤ pyWeekday y m d then
      if pyWeekday y m d = 5 ∧ d + 1 ≤ nd ∧ pyWeekday y m (d + 1) = 6 then
        [d, d + 1] :: weekendGroupsFrom y m nd fuel (d + 2)
      else [d] :: weekendGroupsFrom y m nd fuel (d + 1)
    else weekendGroupsFrom y m nd fuel (d + 1)

/-- The weekend groups of the scheduled month. -/
def weekendGroups (I : SchedInput) : List (List Nat) :=
  weekendGroupsFrom I.year I.month (numDays I) (numDays I + 1) 1

/-- weekend_worked variables are solver Booleans. -/
def BinaryWW (I : SchedInput) (ww : Nat → Nat → Int) : Prop :=
  ∀ e ∈ I.employees, ∀ w ∈ List.range (weekendGroups I).length,
    ww e w = 0 ∨ ww e w = 1

/-- Any assignment on a weekend day forces the weekend_worked indicator of
its group (scheduler.py lines 349-355). -/
def WeekendLink (I : SchedInput) (x : Nat → Nat → SC → Int)
    (ww : Nat → Nat → Int) : Prop :=
  ∀ e ∈ I.employees, ∀ wg ∈ (weekendGroups I).enum, ∀ d ∈ wg.2,
    ∀ s ∈ requiredShiftCodes, x e d s ≤ ww e wg.1

/-- At most MAX_WEEKENDS = 2 worked weekend groups per employee
(scheduler.py lines 358-360). -/
def WeekendCap (I : SchedInput) (ww : Nat → Nat → Int) : Prop :=
  ∀ e ∈ I.employees,
    ((List.range (weekendGroups I).length).map (fun w => ww e w)).sum ≤ 2

/-- Apprentices (Ausbildung 1 and 2) work weekdays only and only B Dienst
or C Dienst (scheduler.py lines 367-380). -/
def AusbildungRules (I : SchedInput) (x : Nat → Nat → SC → Int) : Prop :=
  ∀ d ∈ monthDays I, ∀ e ∈ I.employees,
    (qualOf I e = some "Ausbildung 1" ∨ qualOf I e = some "Ausbildung 2") →
    if 5 ≤ pyWeekday I.year I.month d then
      ∀ s ∈ requiredShiftCodes, x e d s = 0
    else
      ∀ s ∈ requiredShiftCodes, ¬(s = SC.B ∨ s = SC.C) → x e d s = 0

/-- Ausbildung 2: at most MAX_WEEKENDS_AUSB2 = 1 worked weekend group
(scheduler.py lines 385-387). -/
def Ausb2WeekendCap (I : SchedInput) (ww : Nat → Nat → Int) : Prop :=
  ∀ e ∈ I.employees, qualOf I e = some "Ausbildung 2" →
    ((List.range (weekendGroups I).length).map (fun w => ww e w)).sum ≤ 1

/-- The in-month days that are Sundays or listed holidays
(scheduler.py lines 391-395). -/
def sundayHolidayDays (I : SchedInput) : List Nat :=
  (monthDays I).filter (fun d =>
    pyWeekday I.year I.month d = 6 ∨ (I.year, I.month, d) ∈ I.holidays)

/-- Ausbildung 2: at most one worked Sunday-or-holiday day per month
(scheduler.py lines 389-397); the constraint is added only when such days
exist. -/
def Ausb2SundayHoliday (I : SchedInput) (x : Nat → Nat → SC → Int) : Prop :=
  ∀ e ∈ I.employees, qualOf I e = some "Ausbildung 2" →
    sundayHolidayDays I ≠ [] →
    ((sundayHolidayDays I).map (fun d => sumShifts x e d)).sum ≤ 1

/-- Split-shift constraints: at most MAX_SPLIT_SHIFTS = 3 split
assignments per day, and only PH or HF employees may take them
(scheduler.py lines 404-414). -/
def SplitRules (I : SchedInput) (x : Nat → Nat → SC → Int) : Prop :=
  ∀ d ∈ monthDays I,
    (I.employees.map (fun e => x e d SC.BS + x e d SC.C4)).sum ≤ 3 ∧
    (∀ e ∈ I.employees,
      ¬(qualOf I e = some "PH" ∨ qualOf I e = some "HF") →
      x e d SC.BS = 0 ∧ x e d SC.C4 = 0)

/-- Sum of worked shifts over a 5-day block starting at day d. -/
def blockSum (x : Nat → Nat → SC → Int) (e d : Nat) : Int :=
  ((List.range' d 5).map (fun j => sumShifts x e j)).sum

/-- Soft consecutive-shift rules (scheduler.py lines 426-451): Z is the
full-5-day-block indicator, and rest on the two following days is only
enforced up to the slack V. -/
def ConsecutiveRules (I : SchedInput) (x : Nat → Nat → SC → Int)
    (Z : Nat → Nat → Int) (V : Nat → Nat → Int) : Prop :=
  ∀ e ∈ I.employees, ∀ d ∈ List.range' 1 (numDays I - 4),
    (Z e d = 0 ∨ Z e d = 1) ∧ 0 ≤ V e d ∧
    5 * Z e d ≤ blockSum x e d ∧ blockSum x e d ≤ 4 + Z e d ∧
    (d + 5 ≤ numDays I → sumShifts x e (d + 5) ≤ 1 - Z e d + V e d) ∧
    (d + 6 ≤ numDays I → sumShifts x e (d + 6) ≤ 1 - Z e d + V e d)

/-- Total shifts worked by e in the month; Leitung additionally counts the
Bü Dienst days (scheduler.py lines 491-496). -/
def totalShifts (I : SchedInput) (x : Nat → Nat → SC → Int)
    (y : Nat → Nat → Int) (e : Nat) : Int :=
  ((monthDays I).map (fun d => sumShifts x e d)).sum +
    (if qualOf I e = some "Leitung"
     then ((monthDays I).map (fun d => y e d)).sum else 0)

/-- total_absences of scheduler.py lines 499-501: the in-month days with a
Fe or SL absence record. -/
def totalAbsFeSL (I : SchedInput) (e : Nat) : Nat :=
  ((monthDays I).filter (fun d =>
    has_absence_type e d I.month I.absences "Fe" ∨
    has_absence_type e d I.month I.absences "SL")).length

/-- employee_workload.get(e_id, 0). -/
def targetDays (I : SchedInput) (e : Nat) : Int := (pyGet I.workload e).getD 0

/-- Soft target-workday constraints (scheduler.py lines 478-508): the
under / over / excessive slacks are NumVar(0, inf), the balance equation
holds, and over is bounded by excessive. -/
def TargetRules (I : SchedInput) (x : Nat → Nat → SC → Int)
    (y : Nat → Nat → Int) (under over exc : Nat → Int) : Prop :=
  ∀ e ∈ I.employees,
    0 ≤ under e ∧ 0 ≤ over e ∧ 0 ≤ exc e ∧
    totalShifts I x y e + (totalAbsFeSL I e : Int) + under e - over e =
      targetDays I e ∧
    over e ≤ exc e

/-- The full constraint system of the MIP built by generate_schedule_highs
for given decision variables x and y and all auxiliary solver variables. -/
def FeasCore (I : SchedInput) (x : Nat → Nat → SC → Int)
    (y : Nat → Nat → Int) (fachS nonfachS : Nat → SC → Int)
    (earlyS earlyFachS lateS lateHfS lateExtraS bS : Nat → Int)
    (ww Z : Nat → Nat → Int) (V : Nat → Nat → Int)
    (under over exc : Nat → Int) : Prop :=
  BinaryX I x ∧ BinaryY I y ∧ YForced I y ∧ OneShift I x y ∧
  AbsenceZero I x ∧ LeitungRules I x y ∧ CoverageHard I x ∧
  QualSlack I x fachS nonfachS ∧
  GroupSlack I x earlyS earlyFachS lateS lateHfS lateExtraS bS ∧
  Transitions I x ∧ BinaryWW I ww ∧ WeekendLink I x ww ∧ WeekendCap I ww ∧
  AusbildungRules I x ∧ Ausb2WeekendCap I ww ∧ Ausb2SundayHoliday I x ∧
  SplitRules I x ∧ ConsecutiveRules I x Z V ∧ TargetRules I x y under over exc

/-- An (x, y) roster is feasible for the model iff some values of the
auxiliary solver variables satisfy every constraint of the MIP. -/
def Feasible (I : SchedInput) (x : Nat → Nat → SC → Int)
    (y : Nat → Nat → Int) : Prop :=
  ∃ (fachS nonfachS : Nat → SC → Int)
    (earlyS earlyFachS lateS lateHfS lateExtraS bS : Nat → Int)
    (ww Z : Nat → Nat → Int) (V : Nat → Nat → Int) (under over exc : Nat → Int),
    FeasCore I x y fachS nonfachS earlyS earlyFachS lateS lateHfS lateExtraS
      bS ww Z V under over exc

instance decBinaryX (I : SchedInput) (x : Nat → Nat → SC → Int) :
    Decidable (BinaryX I x) := by unfold BinaryX; infer_instance

instance decBinaryY (I : SchedInput) (y : Nat → Nat → Int) :
    Decidable (BinaryY I y) := by unfold BinaryY; infer_instance

instance decYForced (I : SchedInput) (y : Nat → Nat → Int) :
    Decidable (YForced I y) := by unfold YForced; infer_instance

instance decOneShift (I : SchedInput) (x : Nat → Nat → SC → Int)
    (y : Nat → Nat → Int) : Decidable (OneShift I x y) := by
  unfold OneShift; infer_instance

instance decAbsenceZero (I : SchedInput) (x : Nat → Nat → SC → Int) :
    Decidable (AbsenceZero I x) := by unfold AbsenceZero; infer_instance

instance decLeitungRules (I : SchedInput) (x : Nat → Nat → SC → Int)
    (y : Nat → Nat → Int) : Decidable (LeitungRules I x y) := by
  unfold LeitungRules; infer_instance

instance decCoverageHard (I : SchedInput) (x : Nat → Nat → SC → Int) :
    Decidable (CoverageHard I x) := by unfold CoverageHard; infer_instance

instance decQualSlack (I : SchedInput) (x : Nat → Nat → SC → Int)
    (fachS nonfachS : Nat → SC → Int) :
    Decidable (QualSlack I x fachS nonfachS) := by
  unfold QualSlack; infer_instance

instance decGroupSlack (I : SchedInput) (x : Nat → Nat → SC → Int)
    (earlyS earlyFachS lateS lateHfS lateExtraS bS : Nat → Int) :
    Decidable (GroupSlack I x earlyS earlyFachS lateS lateHfS lateExtraS bS) := by
  unfold GroupSlack; infer_instance

instance decTransitions (I : SchedInput) (x : Nat → Nat → SC → Int) :
    Decidable (Transitions I x) := by unfold Transitions; infer_instance

instance decBinaryWW (I : SchedInput) (ww : Nat → Nat → Int) :
    Decidable (BinaryWW I ww) := by unfold BinaryWW; infer_instance

instance decWeekendLink (I : SchedInput) (x : Nat → Nat → SC → Int)
    (ww : Nat → Nat → Int) : Decidable (WeekendLink I x ww) := by
  unfold WeekendLink; infer_instance

instance decWeekendCap (I : SchedInput) (ww : Nat → Nat → Int) :
    Decidable (WeekendCap I ww) := by unfold WeekendCap; infer_instance

instance decAusbildungRules (I : SchedInput) (x : Nat → Nat → SC → Int) :
    Decidable (AusbildungRules I x) := by unfold AusbildungRules; infer_instance

instance decAusb2WeekendCap (I : SchedInput) (ww : Nat → Nat → Int) :
    Decidable (Ausb2WeekendCap I ww) := by unfold Ausb2WeekendCap; infer_instance

instance decAusb2SundayHoliday (I : SchedInput) (x : Nat → Nat → SC → Int) :
    Decidable (Ausb2SundayHoliday I x) := by
  unfold Ausb2SundayHoliday; infer_instance

instance decSplitRules (I : SchedInput) (x : Nat → Nat → SC → Int) :
    Decidable (SplitRules I x) := by unfold SplitRules; infer_instance

instance decConsecutiveRules (I : SchedInput) (x : Nat → Nat → SC → Int)
    (Z : Nat → Nat → Int) (V : Nat → Nat → Int) :
    Decidable (ConsecutiveRules I x Z V) := by
  unfold ConsecutiveRules; infer_instance

instance decTargetRules (I : SchedInput) (x : Nat → Nat → SC → Int)
    (y : Nat → Nat → Int) (under over exc : Nat → Int) :
    Decidable (TargetRules I x y under over exc) := by
  unfold TargetRules; infer_instance

instance decFeasCore (I : SchedInput) (x : Nat → Nat → SC → Int)
    (y : Nat → Nat → Int) (fachS nonfachS : Nat → SC → Int)
    (earlyS earlyFachS lateS lateHfS lateExtraS bS : Nat → Int)
    (ww Z : Nat → Nat → Int) (V : Nat → Nat → Int)
    (under over exc : Nat → Int) :
    Decidable (FeasCore I x y fachS nonfachS earlyS earlyFachS lateS lateHfS
      lateExtraS bS ww Z V under over exc) := by
  unfold FeasCore; infer_instance

/-- Per-assignment objective cost by shift class (scheduler.py lines
538-549): early 1, late 3, split 5. -/
def shiftCost (s : SC) : Int :=
  if s = SC.B ∨ s = SC.C then 1
  else if s = SC.S ∨ s = SC.VS then 3
  else 5

/-- Objective contribution of the coverage slack variables (scheduler.py
lines 513-536). A fach / nonfach slack exists exactly for the shifts whose
requirement dictionary carries that key. -/
def slackPenalties (I : SchedInput) (fachS nonfachS : Nat → SC → Int)
    (earlyS earlyFachS lateS lateHfS lateExtraS bS : Nat → Int) : Int :=
  ((monthDays I).map (fun d =>
    (requiredShifts.map (fun sr =>
      (match sr.2.fach with | some _ => 5000 * fachS d sr.1 | none => 0) +
      (match sr.2.nonfach with | some _ => 3000 * nonfachS d sr.1 | none => 0))).sum
    + 4000 * earlyS d + 5000 * earlyFachS d + 4000 * lateS d +
      5000 * lateHfS d + 3000 * bS d + 50 * lateExtraS d)).sum

/-- Objective contribution of the assignment variables (scheduler.py lines
539-549); the y variables receive no coefficient. -/
def assignCosts (I : SchedInput) (x : Nat → Nat → SC → Int) : Int :=
  ((monthDays I).map (fun d =>
    (requiredShiftCodes.map (fun s =>
      (I.employees.map (fun e => shiftCost s * x e d s)).sum)).sum)).sum

/-- Objective contribution of the consecutive-shift violation slacks
(scheduler.py lines 552-555), at CONSECUTIVE_SHIFT_PENALTY = 1000. -/
def consecPenalties (I : SchedInput) (V : Nat → Nat → Int) : Int :=
  (I.employees.map (fun e =>
    ((List.range' 1 (numDays I - 4)).map (fun d => 1000 * V e d)).sum)).sum

/-- Objective contribution of the workday deviation slacks (scheduler.py
lines 558-563): under at 100, excessive at 2000; over itself is free. -/
def workdayPenalties (I : SchedInput) (under exc : Nat → Int) : Int :=
  (I.employees.map (fun e => 100 * under e + 2000 * exc e)).sum

/-- The full minimization objective assembled by generate_schedule_highs. -/
def objectiveValue (I : SchedInput) (x : Nat → Nat → SC → Int)
    (fachS nonfachS : Nat → SC → Int)
    (earlyS earlyFachS lateS lateHfS lateExtraS bS : Nat → Int)
    (V : Nat → Nat → Int) (under exc : Nat → Int) : Int :=
  slackPenalties I fachS nonfachS earlyS earlyFachS lateS lateHfS lateExtraS bS
    + assignCosts I x + consecPenalties I V + workdayPenalties I under exc

/-- variable_names as recorded by generate_schedule_highs: first every
(e, d, shift) triple of the x loop (day outer, shift middle, employee
inner; scheduler.py lines 152-158), then the Bü Dienst triples of the y
loop, recorded for Leitung employees only (lines 162-170). No absence
check occurs in either loop. -/
def buildVariableNames (I : SchedInput) : List (Nat × Nat × SC) :=
  ((monthDays I).flatMap (fun d =>
    requiredShiftCodes.flatMap (fun s => I.employees.map (fun e => (e, d, s)))))
  ++ ((monthDays I).flatMap (fun d =>
    (I.employees.filter (fun e => qualOf I e == some "Leitung")).map
      (fun e => (e, d, SC.Bue))))

/-- solution_values of scheduler.py lines 574-581: the value recorded for
each variable-name tuple, reading y for Bü Dienst tuples and x otherwise. -/
def solutionValues (I : SchedInput) (x : Nat → Nat → SC → Int)
    (y : Nat → Nat → Int) : List ℚ :=
  (buildVariableNames I).map (fun t =>
    if t.2.2 = SC.Bue then (y t.1 t.2.1 : ℚ) else (x t.1 t.2.1 t.2.2 : ℚ))

/-- The index-weighted value sum over the recorded variables: variable
index times variable value. -/
def tieBreakIndexSum (I : SchedInput) (x : Nat → Nat → SC → Int)
    (y : Nat → Nat → Int) : Int :=
  ((buildVariableNames I).enum.map (fun it =>
    (it.1 : Int) *
      (if it.2.2.2 = SC.Bue then y it.2.1 it.2.2.1
       else x it.2.1 it.2.2.1 it.2.2.2))).sum

/-- Following the specification text (4.5 tier 9): the index-proportional
tie-break term, ten-to-the-minus-six times the variable index times the
variable value, summed over the recorded variables. -/
def specTieBreakTerm (I : SchedInput) (x : Nat → Nat → SC → Int)
    (y : Nat → Nat → Int) : ℚ :=
  (tieBreakIndexSum I x y : ℚ) / 1000000

/-- Following the specification text (4.5): objective with the claimed
additional tie-break coefficient on every assignment variable. -/
def specObjectiveValue (I : SchedInput) (x : Nat → Nat → SC → Int)
    (y : Nat → Nat → Int) (fachS nonfachS : Nat → SC → Int)
    (earlyS earlyFachS lateS lateHfS lateExtraS bS : Nat → Int)
    (V : Nat → Nat → Int) (under exc : Nat → Int) : ℚ :=
  (objectiveValue I x fachS nonfachS earlyS earlyFachS lateS lateHfS lateExtraS
    bS V under exc : ℚ) + specTieBreakTerm I x y

/-- First-match association lookup on the extraction dictionary. -/
def alookup : List ((Nat × Nat) × SC) → (Nat × Nat) → Option SC
  | [], _ => none
  | p :: t, k => if k = p.1 then some p.2 else alookup t k

/-- Python dict assignment schedule[k] = v on an association list:
overwrite the value when the key is present, append otherwise. -/
def dictSet (m : List ((Nat × Nat) × SC)) (k : Nat × Nat) (v : SC) :
    List ((Nat × Nat) × SC) :=
  if (alookup m k).isSome then m.map (fun p => if p.1 = k then (k, v) else p)
  else m ++ [(k, v)]

/-- One iteration of the extraction loop of app.py lines 109-113: a
variable whose solution value exceeds 0.9 is taken as assigned. -/
def extractStep (m : List ((Nat × Nat) × SC))
    (nv : (Nat × Nat × SC) × ℚ) : List ((Nat × Nat) × SC) :=
  if nv.2 > 9/10 then dictSet m (nv.1.1, nv.1.2.1) nv.1.2.2 else m

/-- The extraction loop of app.py lines 106-113: iterate the recorded
variable names in index order against their solution values and build the
(employee, day) to shift-code dictionary. -/
def extractSchedule (names : List (Nat × Nat × SC)) (vals : List ℚ) :
    List ((Nat × Nat) × SC) :=
  (names.zip vals).foldl extractStep []

/-- Following the specification text (4.7): the same extraction but taking
every variable with value greater than 0.5 as assigned. -/
def extractScheduleSpecHalf (names : List (Nat × Nat × SC)) (vals : List ℚ) :
    List ((Nat × Nat) × SC) :=
  (names.zip vals).foldl (fun m nv =>
    if nv.2 > 1/2 then dictSet m (nv.1.1, nv.1.2.1) nv.1.2.2 else m) []

/-- Python f-string 02d formatting of a day or month number. -/
def pad2 (n : Int) : String :=
  if 0 ≤ n ∧ n < 10 then "0" ++ toString n else toString n

/-- Python range(a, b) over integers. -/
def intRange (a b : Int) : List Int :=
  if a < b then (List.range (b - a).toNat).map (fun (i : Nat) => a + (i : Int)) else []

/-- Range expansion of process_date_entries (database.py lines 170-177):
within one month the inclusive day range; across months the days from the
start day to 31 of the start month followed by day 1 to the end day of the
end month. -/
def expandRange (start_day start_month end_day end_month : Int)
    (absence_type : String) : List (String × String) :=
  if start_month = end_month then
    (intRange start_day (end_day + 1)).map (fun day =>
      (pad2 day ++ "." ++ pad2 start_month ++ ".", absence_type))
  else
    ((intRange start_day 32).map (fun day =>
      (pad2 day ++ "." ++ pad2 start_month ++ ".", absence_type)))
    ++ ((intRange 1 (end_day + 1)).map (fun day =>
      (pad2 day ++ "." ++ pad2 end_month ++ ".", absence_type)))

/-- Expansion of one comma-separated token of process_date_entries
(database.py lines 159-184). A ValueError or IndexError anywhere in the
token skips it, yielding no days. -/
def expandEntry (entry : String) (absence_type : String) :
    List (String × String) :=
  if pyContains entry '-' ∨ pyContains entry '–' then
    match (if pyContains entry '-' then pySplit '-' entry else pySplit '–' entry) with
    | [sraw, eraw] =>
      let sds := pyStrip sraw
      let eds := pyStrip eraw
      let sp := pySplit '.' sds
      let ep := pySplit '.' eds
      if sp.length ≥ 2 ∧ ep.length ≥ 2 then
        match pyInt (sp.getD 0 ""), pyInt (sp.getD 1 ""),
              pyInt (ep.getD 0 ""), pyInt (ep.getD 1 "") with
        | some sd, some sm, some ed, some em =>
            expandRange sd sm ed em absence_type
        | _, _, _, _ => []
      else []
    | _ => []
  else
    let p := pySplit '.' entry
    if p.length ≥ 2 then
      match pyInt (p.getD 0 ""), pyInt (p.getD 1 "") with
      | some day, some m =>
          [(pad2 day ++ "." ++ pad2 m ++ ".", absence_type)]
      | _, _ => []
    else []

/-- process_date_entries(date_string, absence_type) of database.py lines
152-186: split on commas, strip, drop empty tokens, and expand each token,
skipping malformed ones. -/
def process_date_entries (date_string : String) (absence_type : String) :
    List (String × String) :=
  if date_string = "" then []
  else (((pySplit ',' date_string).map pyStrip).filter
    (fun e => e ≠ "")).flatMap (fun e => expandEntry e absence_type)

/-- Sanity: February 1, 2025 is a Saturday in the Python weekday
convention. -/
lemma pyWeekday_feb1_2025 : pyWeekday 2025 2 1 = 5 := by decide

/-- Sanity: February 3, 2025 is a Monday. -/
lemma pyWeekday_feb3_2025 : pyWeekday 2025 2 3 = 0 := by decide

/-- Sanity: February 2025 has 28 days. -/
lemma daysInMonth_feb_2025 : daysInMonth 2025 2 = 28 := by decide

/-- The E1 scenario input: a single Leitung employee, February 2025. -/
def inputSingleLeitung : SchedInput :=
  ⟨[1], [(1, "Leitung")], [], [(1, 20)], 2025, 2, []⟩

/-- A 15-employee February 2025 input: 14 PH staff in two weekend
rotations plus one employee with a vacation absence on day 5. -/
def inputTeam : SchedInput :=
  ⟨[1, 2, 3, 4, 5, 6, 7, 8, 9, 10, 11, 12, 13, 14, 15],
   [(1, "PH"), (2, "PH"), (3, "PH"), (4, "PH"), (5, "PH"), (6, "PH"),
    (7, "PH"), (8, "PH"), (9, "PH"), (10, "PH"), (11, "PH"), (12, "PH"),
    (13, "PH"), (14, "PH"), (15, "PH")],
   [(15, [("05.02.", "Fe")])],
   [(1, 24), (2, 24), (3, 24), (4, 24), (5, 24), (6, 24), (7, 24),
    (8, 4), (9, 4), (10, 4), (11, 4), (12, 4), (13, 4), (14, 4), (15, 1)],
   2025, 2, []⟩

/-- A minimal two-employee input with symmetric PH staff. -/
def inputPair : SchedInput :=
  ⟨[1, 2], [(1, "PH"), (2, "PH")], [], [(1, 0), (2, 0)], 2025, 2, []⟩

/-- The days covered by the second weekend rotation of the team roster. -/
def teamBDays : List Nat := [15, 16, 22, 23]

/-- A concrete roster for inputTeam: employees 1-7 cover every day except
the two late weekends, employees 8-14 cover those. -/
def xTeam (e d : Nat) (s : SC) : Int :=
  if d ∈ teamBDays then
    (if (e = 8 ∨ e = 9 ∨ e = 10) ∧ s = SC.B then 1
     else if e = 11 ∧ s = SC.C then 1
     else if (e = 12 ∨ e = 13) ∧ s = SC.S then 1
     else if e = 14 ∧ s = SC.VS then 1 else 0)
  else
    (if (e = 1 ∨ e = 2 ∨ e = 3) ∧ s = SC.B then 1
     else if e = 4 ∧ s = SC.C then 1
     else if (e = 5 ∨ e = 6) ∧ s = SC.S then 1
     else if e = 7 ∧ s = SC.VS then 1 else 0)

/-- The team roster with a second VS Dienst assignment on day 3. -/
def xTwoVS (e d : Nat) (s : SC) : Int :=
  if e = 8 ∧ d = 3 ∧ s = SC.VS then 1 else xTeam e d s

/-- The all-zero office-shift assignment. -/
def yZero : Nat → Nat → Int := fun _ _ => 0

/-- The all-zero slack valuation. -/
def qZero : Nat → Int := fun _ => 0

/-- A constant slack valuation. -/
def slackConst (c : Int) : Nat → Int := fun _ => c

/-- Fach-floor slack witness: absorb the full fach requirement. -/
def fachSTeam : Nat → SC → Int := fun _ s => if s = SC.B ∨ s = SC.S then 1 else 0

/-- Nonfach-floor slack witness: the roster meets the floors directly. -/
def nonfachSTeam : Nat → SC → Int := fun _ _ => 0

/-- weekend_worked witness for the team roster: employees 1-7 work the
first two weekend groups, employees 8-14 the last two. -/
def wwTeam (e w : Nat) : Int :=
  if e ≤ 7 ∧ w ≤ 1 then 1
  else if 8 ≤ e ∧ e ≤ 14 ∧ 2 ≤ w then 1 else 0

/-- Full-block indicator witness for a roster x. -/
def zOf (x : Nat → Nat → SC → Int) (e d : Nat) : Int :=
  if blockSum x e d = 5 then 1 else 0

/-- Constant rest-violation slack, enough to absorb any single day. -/
def vOne : Nat → Nat → Int := fun _ _ => 1

/-- Over-target slack for the roster with the extra VS assignment. -/
def overTwoVS : Nat → Int := fun e => if e = 8 then 1 else 0

lemma sum_map_nonneg {α : Type} (l : List α) (f : α → Int)
    (h : ∀ a ∈ l, 0 ≤ f a) : 0 ≤ (l.map f).sum := by
  refine List.sum_nonneg ?_
  intro v hv
  obtain ⟨a, ha, rfl⟩ := List.mem_map.mp hv
  exact h a ha

lemma eq_zero_of_sum_map_eq_zero {α : Type} {l : List α} {f : α → Int}
    (h0 : ∀ a ∈ l, 0 ≤ f a) (hs : (l.map f).sum = 0) : ∀ a ∈ l, f a = 0 := by
  induction l with
  | nil => intro a ha; simp at ha
  | cons b t ih =>
    simp only [List.map_cons, List.sum_cons] at hs
    have hb : 0 ≤ f b := h0 b (List.mem_cons_self b t)
    have ht : 0 ≤ (t.map f).sum :=
      sum_map_nonneg t f (fun a ha => h0 a (List.mem_cons_of_mem b ha))
    intro a ha
    rcases List.mem_cons.mp ha with rfl | hat
    · omega
    · exact ih (fun a ha => h0 a (List.mem_cons_of_mem b ha)) (by omega) a hat

lemma sumX_nonneg {I : SchedInput} {x : Nat → Nat → SC → Int}
    (hbx : BinaryX I x) {d : Nat} (hd : d ∈ monthDays I) {s : SC}
    (hs : s ∈ requiredShiftCodes) : 0 ≤ sumX I x d s := by
  refine sum_map_nonneg _ _ ?_
  intro e he
  rcases hbx e he d hd s hs with h | h <;> omega

lemma sumXBy_nonneg {I : SchedInput} {x : Nat → Nat → SC → Int}
    (hbx : BinaryX I x) {d : Nat} (hd : d ∈ monthDays I) {s : SC}
    (hs : s ∈ requiredShiftCodes) (p : Option String → Bool) :
    0 ≤ sumXBy I x d s p := by
  refine sum_map_nonneg _ _ ?_
  intro e he
  have he2 : e ∈ I.employees := (List.mem_filter.mp he).1
  rcases hbx e he2 d hd s hs with h | h <;> omega

lemma groupSum_nonneg {I : SchedInput} {x : Nat → Nat → SC → Int}
    (hbx : BinaryX I x) {d : Nat} (hd : d ∈ monthDays I) {shifts : List SC}
    (hsub : ∀ s ∈ shifts, s ∈ requiredShiftCodes) :
    0 ≤ groupSum I x d shifts := by
  refine sum_map_nonneg _ _ ?_
  intro s hs
  exact sumX_nonneg hbx hd (hsub s hs)

lemma groupSumBy_nonneg {I : SchedInput} {x : Nat → Nat → SC → Int}
    (hbx : BinaryX I x) {d : Nat} (hd : d ∈ monthDays I) {shifts : List SC}
    (hsub : ∀ s ∈ shifts, s ∈ requiredShiftCodes) (p : Option String → Bool) :
    0 ≤ groupSumBy I x d shifts p := by
  refine sum_map_nonneg _ _ ?_
  intro s hs
  exact sumXBy_nonneg hbx hd (hsub s hs) p

lemma singleLeitung_infeasible : ¬ ∃ x y, Feasible inputSingleLeitung x y := by
  rintro ⟨x, y, f1, f2, f3, f4, f5, f6, f7, f8, f9, f10, f11, f12, f13, f14, hc⟩
  obtain ⟨hbx, -, -, -, -, -, hcov, -⟩ := hc
  have h3 := hcov 1 (by decide) (SC.B, ⟨3, some 1, some 2, false⟩) (by decide) rfl
  have hb := hbx 1 (by decide) 1 (by decide) SC.B (by decide)
  simp only [sumX, inputSingleLeitung, List.map_cons, List.map_nil,
    List.sum_cons, List.sum_nil] at h3
  rcases hb with h | h <;> omega

lemma feasible_xTeam : Feasible inputTeam xTeam yZero :=
  ⟨fachSTeam, nonfachSTeam, slackConst 5, slackConst 1, slackConst 3,
   slackConst 1, qZero, slackConst 2, wwTeam, zOf xTeam, vOne,
   qZero, qZero, qZero, by decide⟩

lemma feasible_xTwoVS : Feasible inputTeam xTwoVS yZero :=
  ⟨fachSTeam, nonfachSTeam, slackConst 5, slackConst 1, slackConst 3,
   slackConst 1, qZero, slackConst 2, wwTeam, zOf xTwoVS, vOne,
   qZero, overTwoVS, overTwoVS, by decide⟩

/-- C1 counterexample: the claim asserts that daily coverage shortfalls
are always absorbed by slack and that for a single Leitung employee in
February 2025 the solver returns a roster. In the code the per-shift daily
totals of line 229 are hard, so this input admits no feasible assignment
at all: already B Dienst needs 3 assignments per day from one employee. -/
theorem C1_counterexample : ¬ ∃ x y, Feasible inputSingleLeitung x y :=
  singleLeitung_infeasible

/-- C1 amended: only the qualification-mix and group-coverage floors are
soft (their slacked constraint system is satisfiable for every 0/1
assignment), while the per-shift daily totals are hard constraints without
slack; the single-Leitung February 2025 input is infeasible and the solver
reports no solution. -/
theorem C1_theorem :
    (∀ (I : SchedInput) (x : Nat → Nat → SC → Int), BinaryX I x →
      ∃ fachS nonfachS earlyS earlyFachS lateS lateHfS lateExtraS bS,
        QualSlack I x fachS nonfachS ∧
        GroupSlack I x earlyS earlyFachS lateS lateHfS lateExtraS bS) ∧
    ¬ ∃ x y, Feasible inputSingleLeitung x y := by
  constructor
  · intro I x hbx
    refine ⟨fun _ _ => 5, fun _ _ => 5, fun _ => 5, fun _ => 5, fun _ => 5,
      fun _ => 5, fun d => groupSumBy I x d pureLateShifts isFach,
      fun _ => 5, ?_, ?_⟩
    · intro d hd sr hsr _
      have hs1 : sr.1 ∈ requiredShiftCodes := List.mem_map_of_mem Prod.fst hsr
      have hf : 0 ≤ sumXBy I x d sr.1 isFach := sumXBy_nonneg hbx hd hs1 _
      have hnf : 0 ≤ sumXBy I x d sr.1 (fun q => ¬ isFach q) :=
        sumXBy_nonneg hbx hd hs1 _
      have hb : ((sr.2.fach.getD 0 : Nat) : Int) ≤ 2 ∧
          ((sr.2.nonfach.getD 0 : Nat) : Int) ≤ 2 := by
        fin_cases hsr <;> norm_num
      exact ⟨fun _ => ⟨by norm_num, by beta_reduce; omega⟩,
        fun _ => ⟨by norm_num, by beta_reduce; omega⟩⟩
    · intro d hd
      have h1 : 0 ≤ groupSum I x d earlyShifts :=
        groupSum_nonneg hbx hd (by decide)
      have h2 : 0 ≤ groupSumBy I x d earlyShifts isFach :=
        groupSumBy_nonneg hbx hd (by decide) _
      have h3 : 0 ≤ groupSum I x d lateShifts :=
        groupSum_nonneg hbx hd (by decide)
      have h4 : 0 ≤ groupSumBy I x d lateShifts (fun q => q == some "HF") :=
        groupSumBy_nonneg hbx hd (by decide) _
      have h5 : 0 ≤ groupSumBy I x d pureLateShifts isFach :=
        groupSumBy_nonneg hbx hd (by decide) _
      have h6 : 0 ≤ sumX I x d SC.B := sumX_nonneg hbx hd (by decide)
      refine ⟨⟨by norm_num, ?_⟩, ⟨by norm_num, by beta_reduce; omega⟩,
        ⟨by norm_num, by beta_reduce; omega⟩,
        ⟨by norm_num, by beta_reduce; omega⟩, ⟨h5, by beta_reduce; omega⟩,
        ⟨by norm_num, by beta_reduce; omega⟩⟩
      beta_reduce
      split <;> omega
  · exact singleLeitung_infeasible

/-- C1 witness: the soft part of the amended claim applied to the concrete
feasible team input. -/
theorem C1_witness :
    ∃ fachS nonfachS earlyS earlyFachS lateS lateHfS lateExtraS bS,
      QualSlack inputTeam xTeam fachS nonfachS ∧
      GroupSlack inputTeam xTeam earlyS earlyFachS lateS lateHfS lateExtraS bS :=
  C1_theorem.1 inputTeam xTeam (by decide)

/-- C2 counterexample: a feasible assignment of the model (hence a roster
the solver may return) that puts two employees on VS Dienst on day 3; the
model contains no upper bound on VS Dienst. -/
theorem C2_counterexample :
    Feasible inputTeam xTwoVS yZero ∧
      ¬ (sumX inputTeam xTwoVS 3 SC.VS ≤ 1) :=
  ⟨feasible_xTwoVS, by decide⟩

/-- C2 amended: the model constrains VS Dienst per day from below, not
from above: every feasible roster has at least one VS Dienst assignment
on every day of the month. -/
theorem C2_theorem (I : SchedInput) (x : Nat → Nat → SC → Int)
    (y : Nat → Nat → Int) (h : Feasible I x y) :
    ∀ d ∈ monthDays I, 1 ≤ sumX I x d SC.VS := by
  obtain ⟨f1, f2, f3, f4, f5, f6, f7, f8, f9, f10, f11, f12, f13, f14, hc⟩ := h
  obtain ⟨-, -, -, -, -, -, hcov, -⟩ := hc
  intro d hd
  exact hcov d hd (SC.VS, ⟨1, none, none, false⟩) (by decide) rfl

/-- C2 witness: the amended lower bound evaluated on the concrete feasible
team roster at day 3. -/
theorem C2_witness : 1 ≤ sumX inputTeam xTeam 3 SC.VS :=
  C2_theorem inputTeam xTeam yZero feasible_xTeam 3 (by decide)

/-- C4 confirmed: in every feasible assignment, an employee with an
absence record on an in-month day has every regular shift variable equal
to 0 and the Bü Dienst variable equal to 0 on that day. -/
theorem C4_theorem (I : SchedInput) (x : Nat → Nat → SC → Int)
    (y : Nat → Nat → Int) (h : Feasible I x y) :
    ∀ e ∈ I.employees, ∀ d ∈ monthDays I,
      employee_is_absent e d I.month I.absences = true →
      (∀ s ∈ requiredShiftCodes, x e d s = 0) ∧ y e d = 0 := by
  obtain ⟨f1, f2, f3, f4, f5, f6, f7, f8, f9, f10, f11, f12, f13, f14, hc⟩ := h
  obtain ⟨hbx, -, hyf, -, habs, -⟩ := hc
  intro e he d hd habsent
  constructor
  · have hsum : sumShifts x e d = 0 := habs d hd e he habsent
    have h0 : ∀ s ∈ requiredShiftCodes, 0 ≤ x e d s := by
      intro s hs
      rcases hbx e he d hd s hs with h | h <;> omega
    exact eq_zero_of_sum_map_eq_zero h0 hsum
  · exact hyf d hd e he (Or.inr (Or.inr habsent))

/-- C4 witness: employee 15 of the team input is absent on day 5 and the
concrete feasible roster assigns them nothing there. -/
theorem C4_witness :
    (∀ s ∈ requiredShiftCodes, xTeam 15 5 s = 0) ∧ yZero 15 5 = 0 :=
  C4_theorem inputTeam xTeam yZero feasible_xTeam 15 (by decide) 5 (by decide)
    (by decide)

lemma earlyShifts_filter_ne_C :
    earlyShifts.filter (fun s => s ≠ SC.C) = [SC.B, SC.BS, SC.C4] := by decide

/-- C6 confirmed: in every feasible assignment, after S Dienst or BS
Dienst neither B Dienst nor C Dienst follows on the next day, and after
VS Dienst or C4 Dienst no early shift other than C Dienst follows. -/
theorem C6_theorem (I : SchedInput) (x : Nat → Nat → SC → Int)
    (y : Nat → Nat → Int) (h : Feasible I x y) :
    ∀ e ∈ I.employees, ∀ d ∈ List.range' 1 (numDays I - 1),
      ((x e d SC.S = 1 ∨ x e d SC.BS = 1) →
        x e (d + 1) SC.B = 0 ∧ x e (d + 1) SC.C = 0) ∧
      ((x e d SC.VS = 1 ∨ x e d SC.C4 = 1) →
        x e (d + 1) SC.B = 0 ∧ x e (d + 1) SC.BS = 0 ∧
          x e (d + 1) SC.C4 = 0) := by
  obtain ⟨f1, f2, f3, f4, f5, f6, f7, f8, f9, f10, f11, f12, f13, f14, hc⟩ := h
  obtain ⟨hbx, -, -, -, -, -, -, -, -, htr, -⟩ := hc
  intro e he d hd
  have hdr := List.mem_range'_1.mp hd
  have hd1 : d + 1 ∈ monthDays I := by
    unfold monthDays
    exact List.mem_range'_1.mpr (by omega)
  obtain ⟨hlate, hvs, hc4⟩ := htr d hd e he
  have hB1 : x e (d + 1) SC.B = 0 ∨ x e (d + 1) SC.B = 1 :=
    hbx e he (d + 1) hd1 SC.B (by decide)
  have hC1 : x e (d + 1) SC.C = 0 ∨ x e (d + 1) SC.C = 1 :=
    hbx e he (d + 1) hd1 SC.C (by decide)
  have hBS1 : x e (d + 1) SC.BS = 0 ∨ x e (d + 1) SC.BS = 1 :=
    hbx e he (d + 1) hd1 SC.BS (by decide)
  have hC41 : x e (d + 1) SC.C4 = 0 ∨ x e (d + 1) SC.C4 = 1 :=
    hbx e he (d + 1) hd1 SC.C4 (by decide)
  rw [earlyShifts_filter_ne_C] at hvs hc4
  simp only [List.map_cons, List.map_nil, List.sum_cons, List.sum_nil] at hvs hc4
  constructor
  · rintro (h1 | h1)
    · have hb := hlate SC.S (by decide) SC.B (by decide)
      have hcc := hlate SC.S (by decide) SC.C (by decide)
      rw [h1] at hb hcc
      omega
    · have hb := hlate SC.BS (by decide) SC.B (by decide)
      have hcc := hlate SC.BS (by decide) SC.C (by decide)
      rw [h1] at hb hcc
      omega
  · rintro (h1 | h1)
    · rw [h1] at hvs
      omega
    · rw [h1] at hc4
      omega

/-- C6 witness: employee 5 works S Dienst on day 3 of the concrete team
roster, so days 3 and 4 instantiate both transition rules. -/
theorem C6_witness :
    ((xTeam 5 3 SC.S = 1 ∨ xTeam 5 3 SC.BS = 1) →
      xTeam 5 4 SC.B = 0 ∧ xTeam 5 4 SC.C = 0) ∧
    ((xTeam 5 3 SC.VS = 1 ∨ xTeam 5 3 SC.C4 = 1) →
      xTeam 5 4 SC.B = 0 ∧ xTeam 5 4 SC.BS = 0 ∧ xTeam 5 4 SC.C4 = 0) :=
  C6_theorem inputTeam xTeam yZero feasible_xTeam 5 (by decide) 3 (by decide)

/-- The all-zero per-shift slack valuation. -/
def sZero : Nat → SC → Int := fun _ _ => 0

/-- The all-zero consecutive-violation valuation. -/
def vZero : Nat → Nat → Int := fun _ _ => 0

/-- Unit assignment: employee 1 works B Dienst on day 1, nothing else. -/
def xUnitA : Nat → Nat → SC → Int :=
  fun e d s => if e = 1 ∧ d = 1 ∧ s = SC.B then 1 else 0

/-- Unit assignment: employee 2 works B Dienst on day 1, nothing else. -/
def xUnitB : Nat → Nat → SC → Int :=
  fun e d s => if e = 2 ∧ d = 1 ∧ s = SC.B then 1 else 0

lemma sum_map_update {l : List Nat} {f g : Nat → Int} {e0 : Nat} {c : Int}
    (hne : ∀ a, a ≠ e0 → g a = f a) (he : g e0 = f e0 + c)
    (hmem : e0 ∈ l) (hnd : l.Nodup) :
    (l.map g).sum = (l.map f).sum + c := by
  induction l with
  | nil => simp at hmem
  | cons b t ih =>
    have hbt : b ∉ t := (List.nodup_cons.mp hnd).1
    have hndt : t.Nodup := (List.nodup_cons.mp hnd).2
    rcases List.mem_cons.mp hmem with rfl | hmt
    · have hmap : t.map g = t.map f := by
        refine List.map_congr_left ?_
        intro a ha
        exact hne a (fun hh => hbt (hh ▸ ha))
      simp only [List.map_cons, List.sum_cons, hmap, he]
      ring
    · have hbne : b ≠ e0 := fun hh => hbt (hh ▸ hmt)
      simp only [List.map_cons, List.sum_cons, hne b hbne, ih hmt hndt]
      ring

lemma assignCosts_eq_of_sumX_eq (I : SchedInput)
    (x x' : Nat → Nat → SC → Int)
    (h : ∀ d ∈ monthDays I, ∀ s ∈ requiredShiftCodes,
      sumX I x d s = sumX I x' d s) :
    assignCosts I x = assignCosts I x' := by
  unfold assignCosts
  refine congrArg List.sum (List.map_congr_left ?_)
  intro d hd
  refine congrArg List.sum (List.map_congr_left ?_)
  intro s hs
  have h1 : (I.employees.map (fun e => shiftCost s * x e d s)).sum =
      shiftCost s * sumX I x d s := by
    simp only [sumX]
    exact List.sum_map_mul_left I.employees (fun e => x e d s) (shiftCost s)
  have h2 : (I.employees.map (fun e => shiftCost s * x' e d s)).sum =
      shiftCost s * sumX I x' d s := by
    simp only [sumX]
    exact List.sum_map_mul_left I.employees (fun e => x' e d s) (shiftCost s)
  rw [h1, h2, h d hd s hs]

lemma ratShift_ne (a : Int) {s t : Int} (h : s ≠ t) :
    (a : ℚ) + (s : ℚ) / 1000000 ≠ (a : ℚ) + (t : ℚ) / 1000000 := by
  intro hh
  apply h
  have h2 : (s : ℚ) / 1000000 = (t : ℚ) / 1000000 := by linarith
  field_simp at h2
  exact_mod_cast h2

set_option maxRecDepth 8192 in
/-- C3 counterexample: two distinct single-assignment rosters that differ
only by swapping the symmetric employees 1 and 2 receive the same value
from the objective the code builds, while the objective the specification
describes (with the ten-to-the-minus-six index tie-break) separates them;
the code objective therefore carries no tie-break term and induces no
strict ordering between symmetric rosters. -/
theorem C3_counterexample :
    objectiveValue inputPair xUnitA sZero sZero qZero qZero qZero qZero qZero
        qZero vZero qZero qZero =
      objectiveValue inputPair xUnitB sZero sZero qZero qZero qZero qZero qZero
        qZero vZero qZero qZero ∧
    specObjectiveValue inputPair xUnitA yZero sZero sZero qZero qZero qZero
        qZero qZero qZero vZero qZero qZero ≠
      specObjectiveValue inputPair xUnitB yZero sZero sZero qZero qZero qZero
        qZero qZero qZero vZero qZero qZero := by
  constructor
  · decide
  · unfold specObjectiveValue specTieBreakTerm
    have h1 : tieBreakIndexSum inputPair xUnitA yZero = 0 := by decide
    have h2 : tieBreakIndexSum inputPair xUnitB yZero = 1 := by decide
    have h3 : objectiveValue inputPair xUnitA sZero sZero qZero qZero qZero
        qZero qZero qZero vZero qZero qZero =
        objectiveValue inputPair xUnitB sZero sZero qZero qZero qZero qZero
          qZero qZero vZero qZero qZero := by decide
    rw [h1, h2, h3]
    exact ratShift_ne _ (by decide)

/-- C3 amended: the objective built by the code has no index-dependent
term at all: each assignment variable is weighted only by its shift class,
so any two rosters with equal per-day per-shift assignment counts (for
instance, rosters differing by a permutation of interchangeable staff)
receive the same objective value, and the objective induces no strict
ordering guaranteeing a unique optimum. -/
theorem C3_theorem (I : SchedInput) (x x' : Nat → Nat → SC → Int)
    (fachS nonfachS : Nat → SC → Int)
    (earlyS earlyFachS lateS lateHfS lateExtraS bS : Nat → Int)
    (V : Nat → Nat → Int) (under exc : Nat → Int)
    (h : ∀ d ∈ monthDays I, ∀ s ∈ requiredShiftCodes,
      sumX I x d s = sumX I x' d s) :
    objectiveValue I x fachS nonfachS earlyS earlyFachS lateS lateHfS
        lateExtraS bS V under exc =
      objectiveValue I x' fachS nonfachS earlyS earlyFachS lateS lateHfS
        lateExtraS bS V under exc := by
  unfold objectiveValue
  rw [assignCosts_eq_of_sumX_eq I x x' h]

/-- C3 witness: the amended invariance applied to the two symmetric unit
rosters, whose per-day per-shift counts agree. -/
theorem C3_witness :
    objectiveValue inputPair xUnitA sZero sZero qZero qZero qZero qZero qZero
        qZero vZero qZero qZero =
      objectiveValue inputPair xUnitB sZero sZero qZero qZero qZero qZero qZero
        qZero vZero qZero qZero :=
  C3_theorem inputPair xUnitA xUnitB sZero sZero qZero qZero qZero qZero qZero
    qZero vZero qZero qZero (by decide)

/-- C5 confirmed: for every employee of a feasible assignment there are
nonnegative under / over / excessive slacks satisfying the workload
balance worked plus Fe/SL-credited absences plus under minus over equals
target with over bounded by excessive; the objective moves by exactly 100
per unit of under and 2000 per unit of excessive; and an employee none of
whose absence records is of kind Fe or SL receives zero workload credit. -/
theorem C5_theorem (I : SchedInput) (x : Nat → Nat → SC → Int)
    (y : Nat → Nat → Int) (h : Feasible I x y) (hnd : I.employees.Nodup) :
    (∀ e ∈ I.employees, ∃ under over exc : Int,
      0 ≤ under ∧ 0 ≤ over ∧ 0 ≤ exc ∧
      totalShifts I x y e + (totalAbsFeSL I e : Int) + under - over =
        targetDays I e ∧ over ≤ exc) ∧
    (∀ (fachS nonfachS : Nat → SC → Int)
      (earlyS earlyFachS lateS lateHfS lateExtraS bS : Nat → Int)
      (V : Nat → Nat → Int) (under exc : Nat → Int) (e0 : Nat) (c : Int),
      e0 ∈ I.employees →
      objectiveValue I x fachS nonfachS earlyS earlyFachS lateS lateHfS
          lateExtraS bS V (fun e => if e = e0 then under e + c else under e)
          exc =
        objectiveValue I x fachS nonfachS earlyS earlyFachS lateS lateHfS
          lateExtraS bS V under exc + 100 * c) ∧
    (∀ (fachS nonfachS : Nat → SC → Int)
      (earlyS earlyFachS lateS lateHfS lateExtraS bS : Nat → Int)
      (V : Nat → Nat → Int) (under exc : Nat → Int) (e0 : Nat) (c : Int),
      e0 ∈ I.employees →
      objectiveValue I x fachS nonfachS earlyS earlyFachS lateS lateHfS
          lateExtraS bS V under
          (fun e => if e = e0 then exc e + c else exc e) =
        objectiveValue I x fachS nonfachS earlyS earlyFachS lateS lateHfS
          lateExtraS bS V under exc + 2000 * c) ∧
    (∀ e : Nat, (∀ r ∈ (pyGet I.absences e).getD [], r.2 ≠ "Fe" ∧ r.2 ≠ "SL") →
      totalAbsFeSL I e = 0) := by
  obtain ⟨f1, f2, f3, f4, f5, f6, f7, f8, f9, f10, f11, uF, oF, xF, hc⟩ := h
  refine ⟨?_, ?_, ?_, ?_⟩
  · obtain ⟨-, -, -, -, -, -, -, -, -, -, -, -, -, -, -, -, -, -, htgt⟩ := hc
    intro e he
    obtain ⟨hu, ho, hx, heq, hle⟩ := htgt e he
    exact ⟨uF e, oF e, xF e, hu, ho, hx, heq, hle⟩
  · intro fachS nonfachS eS efS lS lhS leS bS V under exc e0 c he0
    have hwp : (I.employees.map (fun e =>
        100 * (if e = e0 then under e + c else under e) + 2000 * exc e)).sum =
        (I.employees.map (fun e => 100 * under e + 2000 * exc e)).sum +
          100 * c := by
      refine sum_map_update ?_ ?_ he0 hnd
      · intro a ha; simp [ha]
      · simp; ring
    simp only [objectiveValue, workdayPenalties]
    rw [hwp]
    ring
  · intro fachS nonfachS eS efS lS lhS leS bS V under exc e0 c he0
    have hwp : (I.employees.map (fun e =>
        100 * under e + 2000 * (if e = e0 then exc e + c else exc e))).sum =
        (I.employees.map (fun e => 100 * under e + 2000 * exc e)).sum +
          2000 * c := by
      refine sum_map_update ?_ ?_ he0 hnd
      · intro a ha; simp [ha]
      · simp; ring
    simp only [objectiveValue, workdayPenalties]
    rw [hwp]
    ring
  · intro e hrec
    have hone : ∀ d t, has_absence_type e d I.month I.absences t = true →
        ∃ r ∈ (pyGet I.absences e).getD [], r.2 = t := by
      intro d t ht
      unfold has_absence_type at ht
      cases hl : pyGet I.absences e with
      | none => rw [hl] at ht; simp at ht
      | some records =>
        rw [hl] at ht
        obtain ⟨r, hr, hrt⟩ := List.any_eq_true.mp ht
        refine ⟨r, by simp [hl, hr], ?_⟩
        unfold recordHitType at hrt
        exact eq_of_beq (Bool.and_elim_right hrt)
    unfold totalAbsFeSL
    rw [List.length_eq_zero]
    rw [List.filter_eq_nil_iff]
    intro d hd
    simp only [decide_eq_true_eq, not_or]
    constructor
    · intro hFe
      obtain ⟨r, hr, hrt⟩ := hone d "Fe" hFe
      exact (hrec r hr).1 hrt
    · intro hSL
      obtain ⟨r, hr, hrt⟩ := hone d "SL" hSL
      exact (hrec r hr).2 hrt

/-- C5 witness: the workload balance instantiated for employee 1 of the
concrete feasible team roster. -/
theorem C5_witness :
    ∃ under over exc : Int, 0 ≤ under ∧ 0 ≤ over ∧ 0 ≤ exc ∧
      totalShifts inputTeam xTeam yZero 1 + (totalAbsFeSL inputTeam 1 : Int) +
        under - over = targetDays inputTeam 1 ∧ over ≤ exc :=
  (C5_theorem inputTeam xTeam yZero feasible_xTeam (by decide)).1 1 (by decide)

lemma mem_intRange {a b x : Int} : x ∈ intRange a b ↔ a ≤ x ∧ x < b := by
  unfold intRange
  by_cases hab : a < b
  · rw [if_pos hab]
    constructor
    · intro him
      obtain ⟨i, hiR, rfl⟩ := List.mem_map.mp him
      have hi := List.mem_range.mp hiR
      omega
    · rintro ⟨h1, h2⟩
      refine List.mem_map.mpr ⟨(x - a).toNat, List.mem_range.mpr (by omega), by omega⟩
  · rw [if_neg hab]
    simp only [List.not_mem_nil, false_iff]
    omega

/-- C7 counterexample: the cross-month range 28.2.-2.3. expands to the
days 28 to 31 of February - including the nonexistent 30.02. and 31.02. -
rather than stopping at the last day of February, and the range
28.1.-2.4., which spans more than two months, is not rejected: it yields a
nonempty expansion that silently omits every day of the months between
(here 15.02. does not appear). -/
theorem C7_counterexample :
    ("30.02.", "Fe") ∈ process_date_entries "28.2.-2.3." "Fe" ∧
    ("31.02.", "Fe") ∈ process_date_entries "28.2.-2.3." "Fe" ∧
    process_date_entries "28.1.-2.4." "Fe" ≠ [] ∧
    ("15.02.", "Fe") ∉ process_date_entries "28.1.-2.4." "Fe" := by
  refine ⟨?_, ?_, ?_, ?_⟩ <;> decide

/-- C7 amended: for a range token whose endpoints lie in different months
the expander emits the days from the start day up to day 31 of the start
month - unconditionally, regardless of the start month's actual length -
followed by day 1 up to the end day of the end month; spans covering more
than two months are not rejected (the expansion is nonempty), the
intermediate months are simply never emitted. -/
theorem C7_theorem :
    (∀ (sd sm ed em : Int) (t : String), sm ≠ em → 1 ≤ sd → sd ≤ 31 →
      (pad2 31 ++ "." ++ pad2 sm ++ ".", t) ∈ expandRange sd sm ed em t) ∧
    (∀ (sd sm ed em : Int) (t : String), sm ≠ em → 1 ≤ ed →
      expandRange sd sm ed em t ≠ []) ∧
    (∀ t : String, process_date_entries "28.2.-2.3." t =
      [("28.02.", t), ("29.02.", t), ("30.02.", t), ("31.02.", t),
       ("01.03.", t), ("02.03.", t)]) ∧
    (∀ t : String, process_date_entries "28.1.-2.4." t =
      [("28.01.", t), ("29.01.", t), ("30.01.", t), ("31.01.", t),
       ("01.04.", t), ("02.04.", t)]) := by
  refine ⟨?_, ?_, ?_, ?_⟩
  · intro sd sm ed em t hne h1 h31
    unfold expandRange
    rw [if_neg hne]
    refine List.mem_append_left _ ?_
    refine List.mem_map.mpr ⟨31, ?_, rfl⟩
    exact mem_intRange.mpr ⟨h31, by norm_num⟩
  · intro sd sm ed em t hne hed
    unfold expandRange
    rw [if_neg hne]
    have hmem : (pad2 1 ++ "." ++ pad2 em ++ ".", t) ∈
        (intRange 1 (ed + 1)).map (fun day =>
          (pad2 day ++ "." ++ pad2 em ++ ".", t)) :=
      List.mem_map.mpr ⟨1, mem_intRange.mpr ⟨le_refl 1, by omega⟩, rfl⟩
    exact List.ne_nil_of_mem (List.mem_append_right _ hmem)
  · intro t; rfl
  · intro t; rfl

/-- C7 witness: day 31 of February is emitted for the concrete range
28.2.-2.3. even though February has no day 31. -/
theorem C7_witness :
    (pad2 31 ++ "." ++ pad2 2 ++ ".", "Fe") ∈ expandRange 28 2 2 3 "Fe" :=
  C7_theorem.1 28 2 2 3 "Fe" (by decide) (by decide) (by decide)

lemma alookup_map_replace (m : List ((Nat × Nat) × SC)) (k : Nat × Nat)
    (v : SC) (q : Nat × Nat) :
    alookup (m.map (fun p => if p.1 = k then (k, v) else p)) q =
      if q = k then (alookup m k).map (fun _ => v) else alookup m q := by
  induction m with
  | nil =>
    simp only [List.map_nil, alookup]
    split <;> rfl
  | cons a t ih =>
    rw [List.map_cons]
    by_cases h1 : a.1 = k
    · rw [show (if a.1 = k then (k, v) else a) = (k, v) from if_pos h1]
      by_cases h2 : q = k
      · subst h2
        rw [if_pos rfl]
        rw [show alookup ((q, v) :: List.map
            (fun p => if p.1 = q then (q, v) else p) t) q = some v from by
          simp [alookup]]
        rw [show alookup (a :: t) q = some a.2 from by simp [alookup, h1.symm]]
        rfl
      · have hqa : ¬ q = a.1 := fun hh => h2 (h1 ▸ hh)
        simp [alookup, h2, hqa, ih]
    · rw [show (if a.1 = k then (k, v) else a) = a from if_neg h1]
      by_cases h2 : q = a.1
      · have hqk : ¬ q = k := fun hh => h1 (by rw [← h2, hh])
        simp [alookup, h2, hqk, h1]
      · by_cases h3 : q = k
        · subst h3
          have hka : ¬ q = a.1 := fun hh => h1 hh.symm
          simp [alookup, h2, hka, ih]
        · simp [alookup, h2, h3, ih]

lemma alookup_append_single (m : List ((Nat × Nat) × SC)) (k : Nat × Nat)
    (v : SC) (q : Nat × Nat) (hk : alookup m k = none) :
    alookup (m ++ [(k, v)]) q = if q = k then some v else alookup m q := by
  induction m with
  | nil => by_cases h : q = k <;> simp [alookup, h]
  | cons a t ih =>
    rw [List.cons_append]
    have hk2 : ¬ k = a.1 ∧ alookup t k = none := by
      by_cases hka : k = a.1
      · simp only [alookup, if_pos hka] at hk
        exact absurd hk (by simp)
      · simp only [alookup, if_neg hka] at hk
        exact ⟨hka, hk⟩
    have hak : ¬ a.1 = k := fun hh => hk2.1 hh.symm
    by_cases h2 : q = a.1
    · have hqk : ¬ q = k := fun hh => hk2.1 (hh.symm.trans h2)
      simp [alookup, h2, hqk, hak]
    · simp [alookup, h2, hak, ih hk2.2]

lemma alookup_dictSet (m : List ((Nat × Nat) × SC)) (k : Nat × Nat)
    (v : SC) (q : Nat × Nat) :
    alookup (dictSet m k v) q = if q = k then some v else alookup m q := by
  unfold dictSet
  by_cases hs : (alookup m k).isSome
  · rw [if_pos hs, alookup_map_replace]
    by_cases hq : q = k
    · obtain ⟨w, hw⟩ := Option.isSome_iff_exists.mp hs
      simp [hq, hw]
    · simp [hq]
  · rw [if_neg hs,
      alookup_append_single m k v q (Option.not_isSome_iff_eq_none.mp hs)]

/-- Whether an extraction-loop entry fires for dictionary key k: its value
exceeds the 0.9 threshold and its (employee, day) pair is k. -/
def activeFor (k : Nat × Nat) (nv : (Nat × Nat × SC) × ℚ) : Bool :=
  decide ((9 : ℚ) / 10 < nv.2) && decide ((nv.1.1, nv.1.2.1) = k)

lemma alookup_foldl_extractStep (l : List ((Nat × Nat × SC) × ℚ))
    (init : List ((Nat × Nat) × SC)) (k : Nat × Nat) :
    alookup (l.foldl extractStep init) k =
      (match l.reverse.find? (activeFor k) with
       | some nv => some nv.1.2.2
       | none => alookup init k) := by
  induction l generalizing init with
  | nil => simp
  | cons a t ih =>
    rw [List.foldl_cons, ih (extractStep init a), List.reverse_cons,
      List.find?_append]
    cases hf : t.reverse.find? (activeFor k) with
    | some nv => simp [Option.or]
    | none =>
      simp only [Option.none_or]
      by_cases ha : activeFor k a = true
      · have hfa : List.find? (activeFor k) [a] = some a := by
          simp [List.find?, ha]
        rw [hfa]
        have hth : (9 : ℚ) / 10 < a.2 := by
          have := Bool.and_elim_left ha
          simpa using this
        have hkey : (a.1.1, a.1.2.1) = k := by
          have := Bool.and_elim_right ha
          simpa using this
        unfold extractStep
        rw [if_pos hth, alookup_dictSet, if_pos hkey.symm]
      · have haf : activeFor k a = false := by simpa using ha
        have hfa : List.find? (activeFor k) [a] = none := by
          simp [List.find?, haf]
        rw [hfa]
        unfold extractStep
        by_cases hth : (9 : ℚ) / 10 < a.2
        · have hkey : ¬((a.1.1, a.1.2.1) = k) := by
            intro hh
            exact ha (by simp [activeFor, hth, hh])
          rw [if_pos hth, alookup_dictSet,
            if_neg (fun hh => hkey hh.symm)]
        · rw [if_neg hth]

/-- C8 counterexample: a variable with solution value 0.7 - which the
claimed 0.5 threshold takes as assigned - is dropped by the extraction
the code performs, which requires the value to exceed 0.9. -/
theorem C8_counterexample :
    extractSchedule [(1, 1, SC.B)] [7/10] = [] ∧
    extractScheduleSpecHalf [(1, 1, SC.B)] [7/10] = [((1, 1), SC.B)] := by
  constructor
  · have h : ¬((9 : ℚ) / 10 < 7 / 10) := by norm_num
    simp [extractSchedule, extractStep, h]
  · have h : ((1 : ℚ) / 2 < 7 / 10) := by norm_num
    norm_num [extractScheduleSpecHalf, dictSet, alookup, h]

/-- C8 amended: the extraction iterates the recorded variables in index
order and takes a variable as assigned exactly when its value exceeds
0.9 (not 0.5): when at most one recorded variable per (employee, day) key
is above the threshold, the produced dictionary maps (e, d) to s exactly
when the entry ((e, d, s), v) with v above 0.9 occurs in the recorded
sequence; and the value recorded for a Bü Dienst variable-name tuple is
the y variable of its employee and day. -/
theorem C8_theorem :
    (∀ (names : List (Nat × Nat × SC)) (vals : List ℚ),
      (∀ p ∈ names.zip vals, ∀ q ∈ names.zip vals,
        (9 : ℚ) / 10 < p.2 → (9 : ℚ) / 10 < q.2 →
        (p.1.1, p.1.2.1) = (q.1.1, q.1.2.1) → p = q) →
      ∀ (e d : Nat) (s : SC),
        alookup (extractSchedule names vals) (e, d) = some s ↔
          ∃ v : ℚ, ((e, d, s), v) ∈ names.zip vals ∧ (9 : ℚ) / 10 < v) ∧
    (∀ (I : SchedInput) (x : Nat → Nat → SC → Int) (y : Nat → Nat → Int)
      (i : Nat) (e d : Nat),
      (buildVariableNames I)[i]? = some (e, d, SC.Bue) →
      (solutionValues I x y)[i]? = some ((y e d : Int) : ℚ)) := by
  constructor
  · intro names vals hu e d s
    unfold extractSchedule
    rw [alookup_foldl_extractStep]
    cases hf : (names.zip vals).reverse.find? (activeFor (e, d)) with
    | none =>
      simp only [alookup]
      constructor
      · intro hh
        exact absurd hh (by simp)
      · rintro ⟨v, hmem, hv⟩
        have hmem2 : ((e, d, s), v) ∈ (names.zip vals).reverse :=
          List.mem_reverse.mpr hmem
        have hnone := List.find?_eq_none.mp hf _ hmem2
        exact absurd
          (by simp [activeFor, hv] : activeFor (e, d) ((e, d, s), v) = true)
          hnone
    | some nv =>
      rcases nv with ⟨⟨a1, a2, a3⟩, av⟩
      have hact := List.find?_some hf
      have hmem : ((a1, a2, a3), av) ∈ names.zip vals :=
        List.mem_reverse.mp (List.mem_of_find?_eq_some hf)
      have hth : (9 : ℚ) / 10 < av := by
        have := Bool.and_elim_left hact
        simpa using this
      have hkey : a1 = e ∧ a2 = d := by
        have := Bool.and_elim_right hact
        simpa [Prod.ext_iff] using this
      obtain ⟨he1, hd1⟩ := hkey
      subst he1
      subst hd1
      constructor
      · intro hh
        have hs3 : a3 = s := by simpa using hh
        subst hs3
        exact ⟨av, hmem, hth⟩
      · rintro ⟨v, hmem2, hv⟩
        have heq := hu ((a1, a2, a3), av) hmem ((a1, a2, s), v) hmem2 hth hv rfl
        simp only [Prod.mk.injEq] at heq
        simp [heq.1.2.2]
  · intro I x y i e d h
    unfold solutionValues
    rw [List.getElem?_map, h]
    simp

/-- C8 witness: the amended characterization instantiated on a one-entry
variable list with value 1. -/
theorem C8_witness :
    (alookup (extractSchedule [(1, 1, SC.B)] [1]) (1, 1) = some SC.B ↔
      ∃ v : ℚ, ((1, 1, SC.B), v) ∈
        (([(1, 1, SC.B)] : List (Nat × Nat × SC)).zip ([1] : List ℚ)) ∧
        (9 : ℚ) / 10 < v) :=
  C8_theorem.1 [(1, 1, SC.B)] [1]
    (by
      intro p hp q hq h1 h2 h3
      simp only [List.zip_cons_cons, List.zip_nil_right,
        List.mem_singleton] at hp hq
      rw [hp, hq])
    1 1 SC.B

/-- A one-employee input with an absence record on day 1 of the scheduled
month. -/
def inputAbsent : SchedInput :=
  ⟨[1], [(1, "PH")], [(1, [("01.02.", "Fe")])], [(1, 0)], 2025, 2, []⟩

/-- C9 counterexample: employee 1 is absent on day 1, yet the variable
builder still records the decision variable (1, 1, B Dienst); no absence
check occurs while materializing variables. -/
theorem C9_counterexample :
    (1, 1, SC.B) ∈ buildVariableNames inputAbsent ∧
    employee_is_absent 1 1 inputAbsent.month inputAbsent.absences = true := by
  constructor
  · decide
  · decide

/-- C9 amended: the builder materializes a decision variable for every
(employee, day, shift) triple of the month regardless of absences -
absences only constrain the variables to 0 (see C4) - and additionally a
Bü Dienst variable-name entry for every Leitung employee and day. -/
theorem C9_theorem (I : SchedInput) :
    (∀ e ∈ I.employees, ∀ d ∈ monthDays I, ∀ s ∈ requiredShiftCodes,
      (e, d, s) ∈ buildVariableNames I) ∧
    (∀ e ∈ I.employees, ∀ d ∈ monthDays I, qualOf I e = some "Leitung" →
      (e, d, SC.Bue) ∈ buildVariableNames I) := by
  constructor
  · intro e he d hd s hs
    refine List.mem_append_left _ ?_
    refine List.mem_flatMap.mpr ⟨d, hd, ?_⟩
    refine List.mem_flatMap.mpr ⟨s, hs, ?_⟩
    exact List.mem_map_of_mem _ he
  · intro e he d hd hq
    refine List.mem_append_right _ ?_
    refine List.mem_flatMap.mpr ⟨d, hd, ?_⟩
    refine List.mem_map_of_mem _ ?_
    refine List.mem_filter.mpr ⟨he, ?_⟩
    simp [hq]

/-- C9 witness: the triple (1, 1, B Dienst) is materialized for the team
input. -/
theorem C9_witness : (1, 1, SC.B) ∈ buildVariableNames inputTeam :=
  (C9_theorem inputTeam).1 1 (by decide) 1 (by decide) SC.B (by decide)

/-- Adding one absence record (date string, kind) for employee e: append
to the employee record list when the employee has absences already,
otherwise create the entry. -/
def addAbsence (I : SchedInput) (e : Nat) (r : String × String) : SchedInput :=
  { I with absences :=
      if (pyGet I.absences e).isSome then
        I.absences.map (fun p => if p.1 = e then (p.1, p.2 ++ [r]) else p)
      else I.absences ++ [(e, [r])] }

/-- The conditions of claim C10 on one absence record: its date string
does not parse as two integers, or the parsed month differs from the
scheduled month, or the parsed day matches no day 1 .. num_days of the
scheduled month. -/
def InertRecord (I : SchedInput) (r : String × String) : Prop :=
  (pySplit '.' r.1).length < 2 ∨
  pyInt ((pySplit '.' r.1).getD 0 "") = none ∨
  pyInt ((pySplit '.' r.1).getD 1 "") = none ∨
  (∃ a b : Int, pyInt ((pySplit '.' r.1).getD 0 "") = some a ∧
    pyInt ((pySplit '.' r.1).getD 1 "") = some b ∧
    (b ≠ (I.month : Int) ∨ ¬(1 ≤ a ∧ a ≤ (numDays I : Int))))

lemma inert_no_hit (I : SchedInput) (r : String × String)
    (h : InertRecord I r) : ∀ d ∈ monthDays I, recordHit r d I.month = false := by
  intro d hd
  have hdr := List.mem_range'_1.mp hd
  rcases h with hlen | hp0 | hp1 | ⟨a, b, ha, hb, hbad⟩
  · simp only [recordHit]
    rw [if_neg (by omega)]
  · simp only [recordHit]
    split
    · rw [hp0]
    · rfl
  · simp only [recordHit]
    split
    · rw [hp1]
      cases pyInt ((pySplit '.' r.1).getD 0 "") <;> rfl
    · rfl
  · simp only [recordHit]
    split
    · rw [ha, hb]
      apply Bool.eq_false_iff.mpr
      intro hcon
      rw [Bool.and_eq_true, beq_iff_eq, beq_iff_eq] at hcon
      rcases hbad with hm | hday
      · exact hm (by omega)
      · exact hday (by omega)
    · rfl

lemma inert_no_hitType (I : SchedInput) (r : String × String)
    (h : InertRecord I r) : ∀ d ∈ monthDays I, ∀ t : String,
      recordHitType r d I.month t = false := by
  intro d hd t
  unfold recordHitType
  rw [inert_no_hit I r h d hd]
  rfl

lemma pyGet_map_update {α β : Type} [DecidableEq α] (m : List (α × β))
    (e : α) (f : β → β) (q : α) :
    pyGet (m.map (fun p => if p.1 = e then (p.1, f p.2) else p)) q =
      if q = e then (pyGet m e).map f else pyGet m q := by
  induction m with
  | nil =>
    simp only [List.map_nil, pyGet]
    split <;> rfl
  | cons a t ih =>
    rw [List.map_cons]
    by_cases h1 : a.1 = e
    · rw [show (if a.1 = e then (a.1, f a.2) else a) = (a.1, f a.2) from
        if_pos h1]
      by_cases h2 : q = a.1
      · simp [pyGet, h2, h1]
      · have hqe : ¬ q = e := fun hh => h2 (hh.trans h1.symm)
        simp [pyGet, h2, hqe, ih]
    · rw [show (if a.1 = e then (a.1, f a.2) else a) = a from if_neg h1]
      by_cases h2 : q = a.1
      · have hqe : ¬ q = e := fun hh => h1 (h2.symm.trans hh)
        simp [pyGet, h2, hqe, h1]
      · have hea : ¬ e = a.1 := fun hh => h1 hh.symm
        simp [pyGet, h2, hea, ih]

lemma pyGet_append_single {α β : Type} [DecidableEq α] (m : List (α × β))
    (e : α) (v : β) (q : α) (hk : pyGet m e = none) :
    pyGet (m ++ [(e, v)]) q = if q = e then some v else pyGet m q := by
  induction m with
  | nil => by_cases h : q = e <;> simp [pyGet, h]
  | cons a t ih =>
    rw [List.cons_append]
    have hk2 : ¬ e = a.1 ∧ pyGet t e = none := by
      by_cases hea : e = a.1
      · simp only [pyGet, if_pos hea] at hk
        exact absurd hk (by simp)
      · simp only [pyGet, if_neg hea] at hk
        exact ⟨hea, hk⟩
    have hae : ¬ a.1 = e := fun hh => hk2.1 hh.symm
    by_cases h2 : q = a.1
    · have hqe : ¬ q = e := fun hh => hk2.1 (hh.symm.trans h2)
      simp [pyGet, h2, hqe, hae]
    · simp [pyGet, h2, hae, ih hk2.2]

lemma pyGet_addAbsence (I : SchedInput) (e : Nat) (r : String × String)
    (e' : Nat) :
    pyGet (addAbsence I e r).absences e' =
      if e' = e then some ((pyGet I.absences e).getD [] ++ [r])
      else pyGet I.absences e' := by
  have hX : (addAbsence I e r).absences =
      (if (pyGet I.absences e).isSome then
        I.absences.map (fun p => if p.1 = e then (p.1, p.2 ++ [r]) else p)
      else I.absences ++ [(e, [r])]) := rfl
  rw [hX]
  by_cases hs : (pyGet I.absences e).isSome
  · rw [if_pos hs, pyGet_map_update I.absences e (fun l => l ++ [r]) e']
    obtain ⟨recs, hrecs⟩ := Option.isSome_iff_exists.mp hs
    by_cases hq : e' = e
    · subst hq
      rw [if_pos rfl, if_pos rfl, hrecs]
      rfl
    · rw [if_neg hq, if_neg hq]
  · have hnone := Option.not_isSome_iff_eq_none.mp hs
    rw [if_neg hs, pyGet_append_single I.absences e [r] e' hnone]
    by_cases hq : e' = e
    · subst hq
      rw [if_pos rfl, if_pos rfl, hnone]
      rfl
    · rw [if_neg hq, if_neg hq]

lemma isAbsent_addAbsence (I : SchedInput) (e : Nat) (r : String × String)
    (h : InertRecord I r) : ∀ e' : Nat, ∀ d ∈ monthDays I,
      employee_is_absent e' d I.month (addAbsence I e r).absences =
        employee_is_absent e' d I.month I.absences := by
  intro e' d hd
  have hhit := inert_no_hit I r h d hd
  unfold employee_is_absent
  rw [pyGet_addAbsence]
  by_cases hq : e' = e
  · subst hq
    rw [if_pos rfl]
    cases hrec : pyGet I.absences e' with
    | some recs => simp [List.any_append, hhit]
    | none => simp [hhit]
  · rw [if_neg hq]

lemma hasType_addAbsence (I : SchedInput) (e : Nat) (r : String × String)
    (h : InertRecord I r) : ∀ e' : Nat, ∀ d ∈ monthDays I, ∀ t : String,
      has_absence_type e' d I.month (addAbsence I e r).absences t =
        has_absence_type e' d I.month I.absences t := by
  intro e' d hd t
  have hhit := inert_no_hitType I r h d hd t
  unfold has_absence_type
  rw [pyGet_addAbsence]
  by_cases hq : e' = e
  · subst hq
    rw [if_pos rfl]
    cases hrec : pyGet I.absences e' with
    | some recs => simp [List.any_append, hhit]
    | none => simp [hhit]
  · rw [if_neg hq]

lemma totalAbsFeSL_addAbsence (I : SchedInput) (e : Nat)
    (r : String × String) (h : InertRecord I r) :
    ∀ e' : Nat, totalAbsFeSL (addAbsence I e r) e' = totalAbsFeSL I e' := by
  intro e'
  unfold totalAbsFeSL
  congr 1
  apply List.filter_congr
  intro d hd
  have h1 := hasType_addAbsence I e r h e' d hd "Fe"
  have h2 := hasType_addAbsence I e r h e' d hd "SL"
  simp only [show (addAbsence I e r).month = I.month from rfl] at h1 h2 ⊢
  rw [show ((addAbsence I e r).absences) =
    (addAbsence I e r).absences from rfl]
  simp [h1, h2]

lemma yforced_addAbsence (I : SchedInput) (e : Nat) (r : String × String)
    (h : InertRecord I r) (y : Nat → Nat → Int) :
    YForced (addAbsence I e r) y ↔ YForced I y := by
  unfold YForced
  constructor
  · intro H d hd e2 he2 hc
    refine H d hd e2 he2 ?_
    rcases hc with hc | hc | hc
    · exact Or.inl hc
    · exact Or.inr (Or.inl hc)
    · exact Or.inr (Or.inr ((isAbsent_addAbsence I e r h e2 d hd).trans hc))
  · intro H d hd e2 he2 hc
    refine H d hd e2 he2 ?_
    rcases hc with hc | hc | hc
    · exact Or.inl hc
    · exact Or.inr (Or.inl hc)
    · exact Or.inr (Or.inr ((isAbsent_addAbsence I e r h e2 d hd).symm.trans hc))

lemma absenceZero_addAbsence (I : SchedInput) (e : Nat)
    (r : String × String) (h : InertRecord I r) (x : Nat → Nat → SC → Int) :
    AbsenceZero (addAbsence I e r) x ↔ AbsenceZero I x := by
  unfold AbsenceZero
  constructor
  · intro H d hd e2 he2 hc
    exact H d hd e2 he2 ((isAbsent_addAbsence I e r h e2 d hd).trans hc)
  · intro H d hd e2 he2 hc
    exact H d hd e2 he2 ((isAbsent_addAbsence I e r h e2 d hd).symm.trans hc)

lemma targetRules_addAbsence (I : SchedInput) (e : Nat)
    (r : String × String) (h : InertRecord I r) (x : Nat → Nat → SC → Int)
    (y : Nat → Nat → Int) (under over exc : Nat → Int) :
    TargetRules (addAbsence I e r) x y under over exc ↔
      TargetRules I x y under over exc := by
  unfold TargetRules
  constructor
  · intro H e2 he2
    obtain ⟨h1, h2, h3, h4, h5⟩ := H e2 he2
    rw [totalAbsFeSL_addAbsence I e r h e2] at h4
    exact ⟨h1, h2, h3, h4, h5⟩
  · intro H e2 he2
    obtain ⟨h1, h2, h3, h4, h5⟩ := H e2 he2
    rw [← totalAbsFeSL_addAbsence I e r h e2] at h4
    exact ⟨h1, h2, h3, h4, h5⟩

lemma feasible_addAbsence (I : SchedInput) (e : Nat) (r : String × String)
    (h : InertRecord I r) (x : Nat → Nat → SC → Int) (y : Nat → Nat → Int) :
    Feasible (addAbsence I e r) x y ↔ Feasible I x y := by
  unfold Feasible
  constructor
  · rintro ⟨f1, f2, f3, f4, f5, f6, f7, f8, f9, f10, f11, f12, f13, f14, hc⟩
    obtain ⟨c1, c2, c3, c4, c5, c6, c7, c8, c9, c10, c11, c12, c13, c14, c15,
      c16, c17, c18, c19⟩ := hc
    exact ⟨f1, f2, f3, f4, f5, f6, f7, f8, f9, f10, f11, f12, f13, f14,
      c1, c2, (yforced_addAbsence I e r h y).mp c3, c4,
      (absenceZero_addAbsence I e r h x).mp c5, c6, c7, c8, c9, c10, c11,
      c12, c13, c14, c15, c16, c17, c18,
      (targetRules_addAbsence I e r h x y f12 f13 f14).mp c19⟩
  · rintro ⟨f1, f2, f3, f4, f5, f6, f7, f8, f9, f10, f11, f12, f13, f14, hc⟩
    obtain ⟨c1, c2, c3, c4, c5, c6, c7, c8, c9, c10, c11, c12, c13, c14, c15,
      c16, c17, c18, c19⟩ := hc
    exact ⟨f1, f2, f3, f4, f5, f6, f7, f8, f9, f10, f11, f12, f13, f14,
      c1, c2, (yforced_addAbsence I e r h y).mpr c3, c4,
      (absenceZero_addAbsence I e r h x).mpr c5, c6, c7, c8, c9, c10, c11,
      c12, c13, c14, c15, c16, c17, c18,
      (targetRules_addAbsence I e r h x y f12 f13 f14).mpr c19⟩

/-- C10 confirmed: adding an absence record whose date string does not
parse as two integers, or whose month differs from the scheduled month,
or whose day lies outside 1 .. num_days, changes nothing the model reads:
both absence predicates are unchanged on every in-month query, the Fe/SL
workload credit is unchanged, and the feasible set of the model is
unchanged (read the equivalence right-to-left for removing such a
record). -/
theorem C10_theorem (I : SchedInput) (e : Nat) (r : String × String)
    (h : InertRecord I r) :
    (∀ e' : Nat, ∀ d ∈ monthDays I,
      employee_is_absent e' d I.month (addAbsence I e r).absences =
        employee_is_absent e' d I.month I.absences ∧
      ∀ t : String,
        has_absence_type e' d I.month (addAbsence I e r).absences t =
          has_absence_type e' d I.month I.absences t) ∧
    (∀ e' : Nat, totalAbsFeSL (addAbsence I e r) e' = totalAbsFeSL I e') ∧
    (∀ (x : Nat → Nat → SC → Int) (y : Nat → Nat → Int),
      Feasible (addAbsence I e r) x y ↔ Feasible I x y) := by
  refine ⟨?_, totalAbsFeSL_addAbsence I e r h, feasible_addAbsence I e r h⟩
  intro e' d hd
  exact ⟨isAbsent_addAbsence I e r h e' d hd,
    hasType_addAbsence I e r h e' d hd⟩

/-- C10 witness: the record 30.02. (day 30 of a 28-day February) added to
employee 1 leaves the workload credit unchanged. -/
theorem C10_witness :
    totalAbsFeSL (addAbsence inputTeam 1 ("30.02.", "Fe")) 1 =
      totalAbsFeSL inputTeam 1 :=
  (C10_theorem inputTeam 1 ("30.02.", "Fe")
    (Or.inr (Or.inr (Or.inr ⟨30, 2, by decide, by decide,
      Or.inr (by decide)⟩)))).2.1 1

end Dienstplan
